import Mathlib

/-!
Formal model of the video-render pipeline of the VideoAUTO backend
(`Backend/app/api/render.py`).

The Python source works on machine floats and strings.  In this development:

* machine floats are modelled as exact rationals (`ℚ`); every float literal
  appearing in the relevant code paths is dyadic and the operations involved
  (`+`, `*`, `/ 2`, `* 2`, comparisons) are exact on them, so the rational
  model agrees with the float source on the inputs considered here;
* Python strings that undergo string processing (`replace`, `split`) are
  modelled as `List Char`; opaque identifier strings (project ids, file ids)
  stay `String`;
* fallible code (Python exceptions) is modelled with `Option` / explicit
  outcome types;
* the ffmpeg filter graph, which the source assembles as a list of
  interpolated strings, is modelled as a list of structured nodes
  (`FNode`), one constructor per filter expression shape the source can
  emit, carrying exactly the values the source interpolates into the
  corresponding string.
-/

/-- Python `int()` applied to a real value: truncation toward zero.
This is the conversion used by the source at
`int(REFERENCE_HEIGHT * vertical_margin_percent / 100)`,
`int(start_time * 1000)` and the blur-box pixel computations. -/
def pyInt (q : ℚ) : ℤ := if 0 ≤ q then ⌊q⌋ else -⌊-q⌋

/-- Python float modulo: `x % y = x - y * ⌊x / y⌋` (the result takes the sign
of the divisor), used by `seconds_to_ass_time` as `seconds % 3600` and
`seconds % 60`. -/
def pyMod (x y : ℚ) : ℚ := x - y * ⌊x / y⌋

/-- Rounding to the nearest integer with ties to even.  Python's fixed-point
float formatting (`f"{s:05.2f}"` in `seconds_to_ass_time`) rounds the exact
value of the float being printed this way. -/
def roundHalfEven (q : ℚ) : ℤ :=
  if q - ⌊q⌋ = 1/2 then (if 2 ∣ ⌊q⌋ then ⌊q⌋ else ⌊q⌋ + 1) else round q

/-- Python `str.split(sep)` for a one-character separator: splits on every
occurrence, keeping empty pieces; splitting the empty string yields `[""]`. -/
def splitOnChar (sep : Char) : List Char → List (List Char)
  | [] => [[]]
  | c :: cs =>
    match splitOnChar sep cs with
    | [] => [[]]
    | p :: ps => if c = sep then [] :: p :: ps else (c :: p) :: ps

/-- Numeric value of a decimal digit character, `none` for any other
character. -/
def digitVal (c : Char) : Option ℕ :=
  if '0' ≤ c ∧ c ≤ '9' then some (c.toNat - '0'.toNat) else none

/-- Accumulating decimal evaluation of a digit list; `none` as soon as a
non-digit character appears. -/
def digitsValAux : ℕ → List Char → Option ℕ
  | acc, [] => some acc
  | acc, c :: cs =>
    match digitVal c with
    | some d => digitsValAux (10 * acc + d) cs
    | none => none

/-- Value of a nonempty, all-digit character list; `none` otherwise. -/
def digitsVal (s : List Char) : Option ℕ :=
  if s = [] then none else digitsValAux 0 s

/-- Semantics of Python's `float()` builtin restricted to plain decimal
literals `[+|-] digits [. digits]` (at least one digit overall).  The builtin
additionally accepts exponents, `inf`/`nan` spellings and surrounding
whitespace; none of those shapes occur in the inputs this development reasons
about, and on the shapes above the model returns exactly the value `float()`
returns (`none` modelling the `ValueError` the builtin raises otherwise). -/
def pyFloat (s : List Char) : Option ℚ :=
  let signBody : ℚ × List Char :=
    match s with
    | '-' :: r => (-1, r)
    | '+' :: r => (1, r)
    | r => (1, r)
  match splitOnChar '.' signBody.2 with
  | [ip] => do
    let n ← digitsVal ip
    pure (signBody.1 * n)
  | [ip, fp] =>
    if ip = [] ∧ fp = [] then none
    else do
      let ni ← (if ip = [] then some 0 else digitsVal ip)
      let nf ← (if fp = [] then some 0 else digitsVal fp)
      pure (signBody.1 * ((ni : ℚ) + (nf : ℚ) / 10 ^ fp.length))
  | _ => none

/-- The inner helper `srt_time_to_seconds` of `_create_ass_subtitle_file`:

    time_part = srt_time.replace(",", ".")
    parts = time_part.split(":")
    if len(parts) == 3:
        h, m, s = parts
        return float(h) * 3600 + float(m) * 60 + float(s)
    return 0.0

`none` models the `ValueError` that propagates out of `float(...)` when a
three-field input has a field that is not a float literal. -/
def srt_time_to_seconds (srtTime : List Char) : Option ℚ :=
  match splitOnChar ':' (srtTime.map fun c => if c = ',' then '.' else c) with
  | [h, m, s] => do
    let hv ← pyFloat h
    let mv ← pyFloat m
    let sv ← pyFloat s
    pure (hv * 3600 + mv * 60 + sv)
  | _ => some 0

/-- Fields of the string produced by the inner helper `seconds_to_ass_time`:

    h = int(seconds // 3600)
    m = int((seconds % 3600) // 60)
    s = seconds % 60
    return f"{h}:{m:02d}:{s:05.2f}"

The printed `SS.cc` field is represented by its total centisecond count
`centi` (the text is `centi / 100`, zero-padded to two digits, then `.`,
then `centi % 100` zero-padded to two digits), with the two-decimal float
formatting modelled by round-half-even on the exact value. -/
structure AssTime where
  h : ℤ
  m : ℤ
  centi : ℤ
  deriving DecidableEq, Repr

/-- The inner helper `seconds_to_ass_time` of `_create_ass_subtitle_file`
(see `AssTime` for the correspondence with the formatted string). -/
def seconds_to_ass_time (seconds : ℚ) : AssTime :=
  { h := ⌊seconds / 3600⌋
    m := ⌊pyMod seconds 3600 / 60⌋
    centi := roundHalfEven (100 * pyMod seconds 60) }

/-- ASS reference resolution, `REFERENCE_HEIGHT = 1080` in the source. -/
def REFERENCE_HEIGHT : ℕ := 1080

/-- ASS reference resolution, `REFERENCE_WIDTH = 1920` in the source. -/
def REFERENCE_WIDTH : ℕ := 1920

/-- Vertical-margin computation of `_create_ass_subtitle_file`:
`vertical_margin = int(REFERENCE_HEIGHT * vertical_margin_percent / 100)`. -/
def verticalMarginPixels (verticalMarginPercent : ℚ) : ℤ :=
  pyInt ((REFERENCE_HEIGHT : ℚ) * verticalMarginPercent / 100)

/-- The `while current_rate > 2.0: tempo_filters.append("atempo=2.0");
current_rate /= 2.0` loop of `render_video`, returning the emitted steps and
the final `current_rate`.  The loop is made total with a fuel argument; with
`r ≤ 2 ^ fuel` the fuel never runs out (`halveStepsAux_spec`), and
`tempoSteps` always supplies such a fuel. -/
def halveStepsAux : ℕ → ℚ → List ℚ × ℚ
  | 0, r => ([], r)
  | n + 1, r =>
    if 2 < r then
      ((2 : ℚ) :: (halveStepsAux n (r / 2)).1, (halveStepsAux n (r / 2)).2)
    else ([], r)

/-- The `while current_rate < 0.5: tempo_filters.append("atempo=0.5");
current_rate *= 2.0` loop of `render_video`, returning the emitted steps and
the final `current_rate`.  Made total with a fuel argument; with
`1 ≤ 2 ^ (fuel + 1) * r` the fuel never runs out (`doubleStepsAux_spec`).
On `r ≤ 0` the source loop would never terminate; every theorem below
assumes a positive rate. -/
def doubleStepsAux : ℕ → ℚ → List ℚ × ℚ
  | 0, r => ([], r)
  | n + 1, r =>
    if r < 1/2 then
      ((1/2 : ℚ) :: (doubleStepsAux n (2 * r)).1, (doubleStepsAux n (2 * r)).2)
    else ([], r)

/-- The atempo decomposition of `render_video` for one segment's
`playbackRate`:

    if rate == 1.0: no step
    elif 0.5 <= rate <= 2.0: the single step `rate`
    else: halve while above 2.0, double while below 0.5,
          then the remaining rate if it is not exactly 1.0

The returned list holds the atempo multipliers in emission order (they are
serialized as `atempo={step}` filters joined by commas, applied left to
right). -/
def tempoSteps (rate : ℚ) : List ℚ :=
  if rate = 1 then []
  else if 1/2 ≤ rate ∧ rate ≤ 2 then [rate]
  else
    let p1 := halveStepsAux ⌈rate⌉.toNat rate
    let p2 := doubleStepsAux ⌈1 / p1.2⌉.toNat p1.2
    p1.1 ++ p2.1 ++ (if p2.2 ≠ 1 then [p2.2] else [])

/-- One entry of `payload.video_segments`.  The source reads the dict keys
`sourceStartTime`, `sourceEndTime` (default `0`) and `playbackRate`
(default `1.0`); the model carries the values directly. -/
structure VideoSegment where
  sourceStartTime : ℚ
  sourceEndTime : ℚ
  playbackRate : ℚ
  deriving DecidableEq, Repr

/-- One entry of `payload.audio_files`.  The source reads `id` (possibly
absent), `startTime` (default `0`) and `volumeDb` (default `0`); the `track`
key is read but never used in the filter graph.  `id = none` models a missing
id; the source treats a present-but-empty id string the same way
(`if audio_id:` is false for both). -/
structure AudioFileRef where
  id : Option String
  startTime : ℚ
  volumeDb : ℚ
  deriving DecidableEq, Repr

/-- One entry of the `audio_paths` list `render_video` builds from the
resolvable audio files: the fields the filter-graph construction reads.
The on-disk temp path and the unused `track` value are not modelled. -/
structure AudioInfo where
  start_time : ℚ
  volume_db : ℚ
  deriving DecidableEq, Repr

/-- A record stored by the file storage (`db.get_file`), reduced to the
fields the modelled code paths inspect: only the filename (for the temp-file
suffix); the raw bytes and content type never influence the claims below. -/
structure StoredFile where
  filename : String
  deriving DecidableEq, Repr

/-- The `hardsub_cover_box` dict: an `enabled` flag and percentage
coordinates. -/
structure BlurBox where
  enabled : Bool
  x : ℚ
  y : ℚ
  width : ℚ
  height : ℚ
  deriving DecidableEq, Repr

/-- One entry of `payload.subtitles`: SRT-style start/end strings and the
text. -/
structure SubtitleCue where
  startTime : List Char
  endTime : List Char
  text : List Char
  deriving DecidableEq, Repr

/-- The `VideoRenderRequest` payload.  `subtitle_style` is reduced to the
single field the claims below inspect (`verticalMargin`); the remaining style
fields (font, colors, outline, alignment) only affect the generated ASS
header text, which no claim here concerns.  `video_frame_url` keeps the raw
data-URL characters, since the source only tests its prefix. -/
structure Payload where
  video_file_id : String
  video_segments : List VideoSegment
  subtitles : List SubtitleCue
  audio_files : List AudioFileRef
  subtitle_style_verticalMargin : Option ℚ
  hardsub_cover_box : Option BlurBox
  master_volume_db : ℚ
  video_frame_url : Option (List Char)
  output_filename : Option String
  deriving DecidableEq, Repr

/-- The audio-file resolution loop of `render_video` (lines 191–207): for
each entry whose `id` is truthy, look the id up in storage; entries with a
missing/empty id or an id absent from storage are silently skipped. -/
def resolveAudio (getFile : String → Option StoredFile)
    (files : List AudioFileRef) : List AudioInfo :=
  files.filterMap fun af =>
    match af.id with
    | some i =>
      match getFile i with
      | some _ => some ⟨af.startTime, af.volumeDb⟩
      | none => none
    | none => none

/-- Characters of the literal `"data:image/png;base64,"` the source tests
with `payload.video_frame_url.startswith(...)`. -/
def pngDataUrlStart : List Char :=
  ['d','a','t','a',':','i','m','a','g','e','/','p','n','g',';',
   'b','a','s','e','6','4',',']

/-- Truth of `payload.video_frame_url and
payload.video_frame_url.startswith("data:image/png;base64,")`. -/
def hasOverlayUrl (p : Payload) : Bool :=
  match p.video_frame_url with
  | some u => pngDataUrlStart.isPrefixOf u
  | none => false

/-- Truth of `payload.hardsub_cover_box and
payload.hardsub_cover_box.get("enabled")`. -/
def hasBlur (p : Payload) : Bool :=
  match p.hardsub_cover_box with
  | some b => b.enabled
  | none => false

/-- The pixel rectangle computed from the blur box when it is enabled:
`int(box[k] * canvas / 100)` for each coordinate. -/
def blurParams (p : Payload) : Option (ℤ × ℤ × ℤ × ℤ) :=
  match p.hardsub_cover_box with
  | some b =>
    if b.enabled then
      some (pyInt (b.x * 1920 / 100), pyInt (b.y * 1080 / 100),
            pyInt (b.width * 1920 / 100), pyInt (b.height * 1080 / 100))
    else none
  | none => none

/-- The `use_filter_complex = bool(audio_paths) or frame_overlay_path or
has_blur_region` switch of `render_video`.  Note that neither the video
segments nor the master volume appear in this condition. -/
def use_filter_complex (p : Payload) (audioPaths : List AudioInfo) : Bool :=
  !audioPaths.isEmpty || hasOverlayUrl p || hasBlur p

/-- The `amix` filter's `duration` option value. -/
inductive MixDuration where
  | longest
  | shortest
  | first
  deriving DecidableEq, Repr

/-- One node of the assembled `-filter_complex` graph, one constructor per
filter-expression shape the source can emit, carrying exactly the values the
source interpolates into the corresponding string:

* `vtrim i s e r`   — `[0:v]trim=start={s}:end={e},setpts=(PTS-STARTPTS)/{r}[seg{i}v]`
* `vconcat n`       — `[seg0v]…[seg{n-1}v]concat=n={n}:v=1:a=0[raw_video]`
* `vnorm`           — the basic chain `scale=1920:1080:…,pad=1920:1080:…,fps=30`
* `vblur x y w h`   — the split/crop/boxblur/overlay group for the blur box
* `voverlay k`      — the frame-overlay group reading input `[{k}:v]`
* `vsub`            — the `ass='…'` subtitle burn-in filter
* `atrim i s e ts`  — `[0:a]atrim=start={s}:end={e},asetpts=PTS-STARTPTS`
                      followed by one `atempo={t}` per element of `ts`
* `aconcat n`       — `[seg0a]…concat=n={n}:v=0:a=1[orig_audio]`
* `adelay i g ms`   — `[{i}:a]` with optional `volume={10^(g/20):.6f},` then
                      `adelay={ms}|{ms}[a{i}]`
* `amix n d z`      — `amix=inputs={n}:duration={d}:normalize={z}`
* `avolume g`       — `volume={10^(g/20):.6f}` (gain recorded in dB; the
                      serialization applies the dB→linear conversion
                      `math.pow(10.0, g / 20.0)`) -/
inductive FNode where
  | vtrim (idx : ℕ) (start stop rate : ℚ)
  | vconcat (n : ℕ)
  | vnorm
  | vblur (x y w h : ℤ)
  | voverlay (inputIdx : ℕ)
  | vsub
  | atrim (idx : ℕ) (start stop : ℚ) (tempo : List ℚ)
  | aconcat (n : ℕ)
  | adelay (idx : ℕ) (gainDb : Option ℚ) (ms : ℤ)
  | amix (inputs : ℕ) (duration : MixDuration) (normalize : ℕ)
  | avolume (gainDb : ℚ)
  deriving DecidableEq, Repr

/-- The per-segment video trim/retime filters (lines 264–276). -/
def videoTrimNodes (segs : List VideoSegment) : List FNode :=
  segs.enum.map fun q =>
    FNode.vtrim q.1 q.2.sourceStartTime q.2.sourceEndTime q.2.playbackRate

/-- The video half of the filter graph as assembled on the
`use_filter_complex` path (lines 256–314): optional trim/concat of the
segments, the always-applied normalization chain, then optional blur group,
frame overlay and subtitle burn-in, in that order. -/
def videoNodes (p : Payload) (audioPaths : List AudioInfo) : List FNode :=
  (if !p.video_segments.isEmpty then
    videoTrimNodes p.video_segments ++
      (if p.video_segments.length > 1 then
        [FNode.vconcat p.video_segments.length]
      else [])
  else [])
  ++ [FNode.vnorm]
  ++ (match blurParams p with
      | some (x, y, w, h) => [FNode.vblur x y w h]
      | none => [])
  ++ (if hasOverlayUrl p then [FNode.voverlay (1 + audioPaths.length)] else [])
  ++ (if !p.subtitles.isEmpty then [FNode.vsub] else [])

/-- The per-segment audio trim/retime filters mirroring the video segments
(lines 321–364), each carrying its atempo chain from `tempoSteps`. -/
def audioSegNodes (segs : List VideoSegment) : List FNode :=
  segs.enum.map fun q =>
    FNode.atrim q.1 q.2.sourceStartTime q.2.sourceEndTime
      (tempoSteps q.2.playbackRate)

/-- The audio half of the filter graph as assembled on the
`use_filter_complex` path (lines 316–407):

* with audio clips: the mirrored segment trim/concat chain when segments
  exist, one optional-gain + delay node per clip, the single `amix` with
  `inputs = clips + 1`, `duration=longest`, `normalize=0`, and the master
  volume node last when `master_volume_db` is nonzero;
* without clips but with nonzero master volume: a single volume node on the
  source audio;
* otherwise no audio filters at all (the command then maps `0:a?`). -/
def audioNodes (p : Payload) (audioPaths : List AudioInfo) : List FNode :=
  if !audioPaths.isEmpty then
    (if !p.video_segments.isEmpty then
      audioSegNodes p.video_segments ++ [FNode.aconcat p.video_segments.length]
    else [])
    ++ audioPaths.enum.map (fun q =>
        FNode.adelay (q.1 + 1)
          (if q.2.volume_db ≠ 0 then some q.2.volume_db else none)
          (pyInt (q.2.start_time * 1000)))
    ++ [FNode.amix (audioPaths.length + 1) MixDuration.longest 0]
    ++ (if p.master_volume_db ≠ 0 then [FNode.avolume p.master_volume_db] else [])
  else if p.master_volume_db ≠ 0 then [FNode.avolume p.master_volume_db]
  else []

/-- The complete `-filter_complex` argument as a node list: `some` graph on
the `use_filter_complex` path, `none` when the source instead appends the
plain `-vf`-style `video_filters` (line 420) — on that path no trim, concat
or audio filter is ever emitted. -/
def buildFilterGraph (p : Payload) (audioPaths : List AudioInfo) :
    Option (List FNode) :=
  if use_filter_complex p audioPaths then
    some (videoNodes p audioPaths ++ audioNodes p audioPaths)
  else none

/-- Outcome of `subprocess.run(ffmpeg_cmd, ..., timeout=RENDER_TIMEOUT_SECONDS)`:
either the process completed with a return code, or `subprocess.TimeoutExpired`
was raised. -/
inductive RunOutcome where
  | completed (returncode : ℤ)
  | timedOut
  deriving DecidableEq, Repr

/-- Environment of one `render_video` call: the collaborators the endpoint
consults.  `projects` models `db.get_project` (only presence matters),
`files` models `db.get_file`, `ffmpegFound` the success of
`shutil.which("ffmpeg")`, `run` the ffmpeg subprocess outcome, and
`logAppendOk` whether appending the timeout marker to the log file succeeds
(its failure is swallowed by the inner `try/except`).  The best-effort
ffprobe duration probe and the log-file writes on the normal path are not
modelled; no claim below concerns them. -/
structure Env where
  projects : String → Bool
  files : String → Option StoredFile
  ffmpegFound : Bool
  run : RunOutcome
  logAppendOk : Bool

/-- Observable side effects of one `render_video` call, in order of
occurrence. -/
inductive Event where
  | tempDirCreated
  | subprocessRun
  | timeoutMarkerLogged
  deriving DecidableEq, Repr

/-- The `status` field of the structured result dict. -/
inductive Status where
  | success
  | error
  deriving DecidableEq, Repr

/-- The `message` field of the structured result dict, reduced to which
constant the source formats: the missing-ffmpeg text, the
`"ffmpeg rendering failed: …"` text, the timeout text (which interpolates
`RENDER_TIMEOUT_SECONDS`), or the success text. -/
inductive Msg where
  | missingEngine
  | ffmpegFailed
  | timeout (limitSeconds : ℕ)
  | rendered
  deriving DecidableEq, Repr

/-- What one `render_video` call hands back to FastAPI: a raised
`HTTPException` (pre-flight validation) or the structured result dict. -/
inductive Outcome where
  | httpError (code : ℕ)
  | result (status : Status) (msg : Msg)
  deriving DecidableEq, Repr

/-- Default of the `RENDER_TIMEOUT_SECONDS` configuration constant
(`int(os.getenv("RENDER_TIMEOUT_SECONDS", "7200"))` in `app/core/config.py`);
the model fixes the default since the claims only need the limit to be the
configured one. -/
def RENDER_TIMEOUT_SECONDS : ℕ := 7200

/-- The `render_video` endpoint as a function of its environment, returning
the outcome together with the trace of observable side effects:

1. unknown project id → `HTTPException(404)`;
2. primary video id absent from storage → `HTTPException(404)`;
3. `shutil.which("ffmpeg")` failing → structured error result, before the
   temporary directory or any subprocess exists;
4. otherwise the temporary directory is created, audio files are resolved
   (missing ones silently skipped), the filter graph is built, and the
   subprocess runs: nonzero exit → structured error; zero exit → structured
   success; `TimeoutExpired` → structured error naming the configured limit,
   with the timeout marker appended to the log only when that append
   succeeds (a failing append is swallowed). -/
def render_video (env : Env) (project_id : String) (p : Payload) :
    Outcome × List Event :=
  if env.projects project_id = false then (.httpError 404, [])
  else
    match env.files p.video_file_id with
    | none => (.httpError 404, [])
    | some _ =>
      if env.ffmpegFound = false then (.result .error .missingEngine, [])
      else
        let audioPaths := resolveAudio env.files p.audio_files
        let _graph := buildFilterGraph p audioPaths
        match env.run with
        | .completed rc =>
          if rc ≠ 0 then
            (.result .error .ffmpegFailed, [.tempDirCreated, .subprocessRun])
          else
            (.result .success .rendered, [.tempDirCreated, .subprocessRun])
        | .timedOut =>
          (.result .error (.timeout RENDER_TIMEOUT_SECONDS),
            [.tempDirCreated, .subprocessRun] ++
              (if env.logAppendOk then [.timeoutMarkerLogged] else []))

/-- Selector for video trim nodes. -/
def isVTrim : FNode → Bool
  | .vtrim _ _ _ _ => true
  | _ => false

/-- Selector for video concat nodes. -/
def isVConcat : FNode → Bool
  | .vconcat _ => true
  | _ => false

/-- Selector for the nodes of the audio chain. -/
def isAudioNode : FNode → Bool
  | .atrim _ _ _ _ => true
  | .aconcat _ => true
  | .adelay _ _ _ => true
  | .amix _ _ _ => true
  | .avolume _ => true
  | _ => false

/-- The video trim nodes of a graph, in graph order. -/
def trimNodesOf (g : List FNode) : List FNode := g.filter fun n => isVTrim n

/-- The `n` parameter of a video concat node, `none` for any other node. -/
def vconcatSel : FNode → Option ℕ
  | .vconcat k => some k
  | _ => none

/-- The `n` parameters of the video concat nodes of a graph. -/
def vconcatNsOf (g : List FNode) : List ℕ :=
  g.filterMap fun n => vconcatSel n

/-- The audio-chain nodes of a graph, in graph order. -/
def audioNodesOf (g : List FNode) : List FNode :=
  g.filter fun n => isAudioNode n

/-- Selector for mix nodes. -/
def isAmix : FNode → Bool
  | .amix _ _ _ => true
  | _ => false

/-- The `amix` nodes of a graph, with their parameters. -/
def amixNodesOf (g : List FNode) : List FNode :=
  g.filter fun n => isAmix n

/-- A first sample segment (`sourceStartTime=0`, `sourceEndTime=5`,
`playbackRate=1`). -/
def segA : VideoSegment := ⟨0, 5, 1⟩

/-- A second sample segment (`sourceStartTime=10`, `sourceEndTime=12`,
`playbackRate=1/2`). -/
def segB : VideoSegment := ⟨10, 12, 1/2⟩

/-- A minimal request: one source video, no segments, no subtitles, no audio
clips, no style, no blur box, zero master volume, no overlay. -/
def basePayload : Payload :=
  { video_file_id := "vid"
    video_segments := []
    subtitles := []
    audio_files := []
    subtitle_style_verticalMargin := none
    hardsub_cover_box := none
    master_volume_db := 0
    video_frame_url := none
    output_filename := none }

/-- A request carrying two video segments and nothing that would trigger the
`use_filter_complex` path. -/
def payloadTwoSegs : Payload := { basePayload with video_segments := [segA, segB] }

/-- An enabled blur box. -/
def enabledBox : BlurBox := ⟨true, 0, 0, 10, 10⟩

/-- Two video segments plus an enabled blur box (so the filter-complex path
is taken). -/
def payloadTwoSegsBlur : Payload :=
  { payloadTwoSegs with hardsub_cover_box := some enabledBox }

/-- Nonzero master volume and nothing else. -/
def payloadMasterOnly : Payload := { basePayload with master_volume_db := -6 }

/-- Nonzero master volume plus an enabled blur box. -/
def payloadMasterBlur : Payload :=
  { payloadMasterOnly with hardsub_cover_box := some enabledBox }

/-- An audio clip referencing the id `"ghost"`. -/
def audioRefGhost : AudioFileRef := ⟨some "ghost", 0, 0⟩

/-- A request with one audio clip whose id is absent from storage. -/
def payloadGhostAudio : Payload :=
  { basePayload with audio_files := [audioRefGhost] }

/-- An audio clip referencing the id `"song"`, starting at `3.2` seconds with
`volumeDb = -6`. -/
def audioRefSong : AudioFileRef := ⟨some "song", 16/5, -6⟩

/-- A request with the single audio clip `audioRefSong`. -/
def payloadOneAudio : Payload :=
  { basePayload with audio_files := [audioRefSong] }

/-- Storage holding the primary video under `"vid"` and an audio file under
`"song"`; nothing else. -/
def sampleFiles : String → Option StoredFile := fun fid =>
  if fid = "vid" then some ⟨"input.mp4"⟩
  else if fid = "song" then some ⟨"song.mp3"⟩
  else none

/-- An environment where every project exists, storage is `sampleFiles`,
ffmpeg is installed, and the subprocess exits cleanly. -/
def envOk : Env :=
  { projects := fun _ => true
    files := sampleFiles
    ffmpegFound := true
    run := .completed 0
    logAppendOk := true }

/-- `envOk` with the ffmpeg binary absent. -/
def envNoFfmpeg : Env := { envOk with ffmpegFound := false }

/-- `envOk` where the subprocess hits the timeout and appending the timeout
marker to the log file itself fails. -/
def envTimeoutLogFail : Env :=
  { envOk with run := .timedOut, logAppendOk := false }

theorem roundHalfEven_near (q : ℚ) : |(roundHalfEven q : ℚ) - q| ≤ 1/2 := by
  unfold roundHalfEven
  split
  · rename_i h
    split
    · have e : (⌊q⌋ : ℚ) - q = -(1/2) := by linarith
      rw [e, abs_neg, abs_of_nonneg (by norm_num : (0:ℚ) ≤ 1/2)]
    · push_cast
      have e : (⌊q⌋ : ℚ) + 1 - q = 1/2 := by linarith
      rw [e, abs_of_nonneg (by norm_num : (0:ℚ) ≤ 1/2)]
  · rw [abs_sub_comm]
    exact abs_sub_round q

/-- C4 counterexample: on the three-field input `"a:b:c"` the converter does
not return `0.0`; `float("a")` raises `ValueError` (modelled by `none`), so
the claim that the converter never raises and maps every malformed timestamp
to `0.0` is false. -/
theorem C4_counterexample :
    srt_time_to_seconds ['a', ':', 'b', ':', 'c'] = none := by decide

/-- C4 amended: the converter returns `0.0` (without raising) exactly for
inputs that do not split into three `:`-separated fields; a three-field input
whose fields are not float literals raises instead. -/
theorem C4_amended_malformed (s : List Char)
    (h : (splitOnChar ':' (s.map fun c => if c = ',' then '.' else c)).length ≠ 3) :
    srt_time_to_seconds s = some 0 := by
  unfold srt_time_to_seconds
  split
  · rename_i heq
    refine absurd ?_ h
    rw [heq]
    rfl
  · rfl

theorem C4_witness :
    (splitOnChar ':' ((['1', '2']).map fun c => if c = ',' then '.' else c)).length ≠ 3 ∧
      srt_time_to_seconds ['1', '2'] = some 0 :=
  ⟨by decide, C4_amended_malformed ['1', '2'] (by decide)⟩

/-- C5 counterexample: at `seconds = 0.999` the printed seconds field is
`01.00` (100 centiseconds), while truncating the milliseconds would give
`00.99` (99 centiseconds): the formatting `f"{s:05.2f}"` rounds, it does not
truncate. -/
theorem C5_counterexample :
    (seconds_to_ass_time (999/1000)).centi = 100 ∧
      ⌊(100 : ℚ) * pyMod (999/1000) 60⌋ = 99 ∧ (100 : ℤ) ≠ 99 := by
  refine ⟨?_, ?_, by decide⟩
  · norm_num [seconds_to_ass_time, pyMod, roundHalfEven, round_eq]
  · norm_num [pyMod]

/-- C5 amended: for every nonnegative seconds value the centiseconds field of
the `H:MM:SS.cc` output is the seconds remainder rounded to the nearest
centisecond (ties to even, as the float formatting does) — within half a
centisecond of the exact value — rather than its truncation. -/
theorem C5_amended_rounding (x : ℚ) (_hx : 0 ≤ x) :
    |((seconds_to_ass_time x).centi : ℚ) - 100 * pyMod x 60| ≤ 1/2 := by
  simpa [seconds_to_ass_time] using roundHalfEven_near (100 * pyMod x 60)

theorem C5_witness :
    (0 : ℚ) ≤ 1 ∧
      |((seconds_to_ass_time 1).centi : ℚ) - 100 * pyMod 1 60| ≤ 1/2 :=
  ⟨by norm_num, C5_amended_rounding 1 (by norm_num)⟩

/-- C6 counterexample: for `verticalMargin = 7` percent the source computes
`int(1080 * 7 / 100) = 75`, while rounding as the claim states would give
`round(75.6) = 76`. -/
theorem C6_counterexample :
    verticalMarginPixels 7 = 75 ∧
      round ((REFERENCE_HEIGHT : ℚ) * 7 / 100) = 76 ∧ (75 : ℤ) ≠ 76 := by
  refine ⟨?_, ?_, by decide⟩
  · norm_num [verticalMarginPixels, pyInt, REFERENCE_HEIGHT]
  · norm_num [REFERENCE_HEIGHT, round_eq]

/-- C6 amended: the compiled vertical margin is the truncation (floor, for
nonnegative percentages) of `1080 * p / 100` computed against the fixed
1920×1080 reference canvas, not its rounding. -/
theorem C6_amended_truncation (p : ℚ) (hp : 0 ≤ p) :
    ((verticalMarginPixels p : ℚ)) ≤ (REFERENCE_HEIGHT : ℚ) * p / 100 ∧
      (REFERENCE_HEIGHT : ℚ) * p / 100 < verticalMarginPixels p + 1 := by
  have hq : (0 : ℚ) ≤ (REFERENCE_HEIGHT : ℚ) * p / 100 := by
    have : (0:ℚ) ≤ (REFERENCE_HEIGHT : ℚ) := by norm_num [REFERENCE_HEIGHT]
    positivity
  unfold verticalMarginPixels pyInt
  rw [if_pos hq]
  refine ⟨Int.floor_le _, ?_⟩
  have := Int.lt_floor_add_one ((REFERENCE_HEIGHT : ℚ) * p / 100)
  linarith

theorem C6_witness :
    (0 : ℚ) ≤ 7 ∧
      (((verticalMarginPixels 7 : ℤ) : ℚ) ≤ (REFERENCE_HEIGHT : ℚ) * 7 / 100 ∧
        (REFERENCE_HEIGHT : ℚ) * 7 / 100 < verticalMarginPixels 7 + 1) :=
  ⟨by norm_num, C6_amended_truncation 7 (by norm_num)⟩

theorem halveStepsAux_spec (n : ℕ) : ∀ r : ℚ, 0 < r → r ≤ 2 ^ n →
    (halveStepsAux n r).1.prod * (halveStepsAux n r).2 = r ∧
    (∀ s ∈ (halveStepsAux n r).1, s = 2) ∧
    0 < (halveStepsAux n r).2 ∧ (halveStepsAux n r).2 ≤ 2 ∧
    (2 < r → 1 < (halveStepsAux n r).2) ∧
    (r ≤ 2 → halveStepsAux n r = ([], r)) := by
  induction n with
  | zero =>
    intro r h0 hf
    have hr2 : r ≤ 2 := by
      simpa using hf.trans (by norm_num : (2:ℚ)^0 ≤ 2)
    refine ⟨by simp [halveStepsAux], by simp [halveStepsAux], ?_, ?_, ?_, ?_⟩
    · simpa [halveStepsAux] using h0
    · simpa [halveStepsAux] using hr2
    · intro h2
      exact absurd (lt_of_lt_of_le h2 hr2) (lt_irrefl 2)
    · intro _
      simp [halveStepsAux]
  | succ n ih =>
    intro r h0 hf
    by_cases h2 : 2 < r
    · have h0' : 0 < r / 2 := by positivity
      have hf' : r / 2 ≤ 2 ^ n := by
        rw [pow_succ] at hf
        linarith
      obtain ⟨ihp, ihm, ihpos, ihle, ihgt, ihid⟩ := ih (r / 2) h0' hf'
      have hunf : halveStepsAux (n + 1) r =
          ((2 : ℚ) :: (halveStepsAux n (r / 2)).1, (halveStepsAux n (r / 2)).2) := by
        simp only [halveStepsAux]
        rw [if_pos h2]
      rw [hunf]
      refine ⟨?_, ?_, ihpos, ihle, ?_, ?_⟩
      · simp only [List.prod_cons]
        rw [mul_assoc, ihp]
        ring
      · intro s hs
        rcases List.mem_cons.mp hs with h | h
        · exact h
        · exact ihm s h
      · intro _
        by_cases h2' : 2 < r / 2
        · exact ihgt h2'
        · push_neg at h2'
          rw [ihid h2']
          linarith
      · intro hle
        exact absurd (lt_of_lt_of_le h2 hle) (lt_irrefl 2)
    · push_neg at h2
      have hunf : halveStepsAux (n + 1) r = ([], r) := by
        simp only [halveStepsAux]
        rw [if_neg (not_lt.mpr h2)]
      rw [hunf]
      exact ⟨by simp, by simp, h0, h2, fun h => absurd (lt_of_lt_of_le h h2) (lt_irrefl 2),
        fun _ => rfl⟩

theorem doubleStepsAux_spec (n : ℕ) : ∀ r : ℚ, 0 < r → 1 ≤ 2 ^ (n + 1) * r →
    (doubleStepsAux n r).1.prod * (doubleStepsAux n r).2 = r ∧
    (∀ s ∈ (doubleStepsAux n r).1, s = 1/2) ∧
    1/2 ≤ (doubleStepsAux n r).2 ∧
    (r < 1/2 → (doubleStepsAux n r).2 < 1) ∧
    (1/2 ≤ r → doubleStepsAux n r = ([], r)) := by
  induction n with
  | zero =>
    intro r h0 hf
    have hr2 : 1/2 ≤ r := by
      rw [pow_one] at hf
      linarith
    refine ⟨by simp [doubleStepsAux], by simp [doubleStepsAux], ?_, ?_, ?_⟩
    · simpa [doubleStepsAux] using hr2
    · intro h
      exact absurd (lt_of_le_of_lt hr2 h) (lt_irrefl _)
    · intro _
      simp [doubleStepsAux]
  | succ n ih =>
    intro r h0 hf
    by_cases hr : r < 1/2
    · have h0' : 0 < 2 * r := by positivity
      have hf' : 1 ≤ 2 ^ (n + 1) * (2 * r) := by
        calc (1:ℚ) ≤ 2 ^ (n + 1 + 1) * r := hf
        _ = 2 ^ (n + 1) * (2 * r) := by ring
      obtain ⟨ihp, ihm, ihge, ihlt, ihid⟩ := ih (2 * r) h0' hf'
      have hunf : doubleStepsAux (n + 1) r =
          ((1/2 : ℚ) :: (doubleStepsAux n (2 * r)).1, (doubleStepsAux n (2 * r)).2) := by
        simp only [doubleStepsAux]
        rw [if_pos hr]
      rw [hunf]
      refine ⟨?_, ?_, ihge, ?_, ?_⟩
      · simp only [List.prod_cons]
        rw [mul_assoc, ihp]
        ring
      · intro s hs
        rcases List.mem_cons.mp hs with h | h
        · exact h
        · exact ihm s h
      · intro _
        by_cases hr' : 2 * r < 1/2
        · exact ihlt hr'
        · push_neg at hr'
          rw [ihid hr']
          linarith
      · intro hle
        exact absurd (lt_of_le_of_lt hle hr) (lt_irrefl _)
    · push_neg at hr
      have hunf : doubleStepsAux (n + 1) r = ([], r) := by
        simp only [doubleStepsAux]
        rw [if_neg (not_lt.mpr hr)]
      rw [hunf]
      exact ⟨by simp, by simp, hr,
        fun h => absurd (lt_of_le_of_lt hr h) (lt_irrefl _), fun _ => rfl⟩

theorem rat_le_two_pow_ceil (r : ℚ) (h0 : 0 < r) : r ≤ 2 ^ ⌈r⌉.toNat := by
  have h1 : (0 : ℤ) < ⌈r⌉ := Int.ceil_pos.mpr h0
  have h2 : r ≤ (⌈r⌉ : ℚ) := Int.le_ceil r
  have h3 : ((⌈r⌉.toNat : ℤ) : ℚ) = (⌈r⌉ : ℚ) := by
    rw [Int.toNat_of_nonneg h1.le]
  have h4 : (⌈r⌉.toNat : ℚ) ≤ 2 ^ ⌈r⌉.toNat := by
    exact_mod_cast (Nat.lt_two_pow ⌈r⌉.toNat).le
  push_cast at h3
  linarith

theorem one_le_two_pow_ceil_inv (r : ℚ) (h0 : 0 < r) :
    1 ≤ 2 ^ (⌈1 / r⌉.toNat + 1) * r := by
  have h1 : 1 / r ≤ 2 ^ ⌈1 / r⌉.toNat := rat_le_two_pow_ceil (1 / r) (by positivity)
  have h2 : (1 : ℚ) = (1 / r) * r := by field_simp
  have h3 : (1 / r) * r ≤ 2 ^ ⌈1 / r⌉.toNat * r :=
    mul_le_mul_of_nonneg_right h1 h0.le
  have h4 : (2:ℚ) ^ ⌈1 / r⌉.toNat * r ≤ 2 ^ (⌈1 / r⌉.toNat + 1) * r := by
    have : (2:ℚ) ^ ⌈1 / r⌉.toNat ≤ 2 ^ (⌈1 / r⌉.toNat + 1) := by
      rw [pow_succ]
      nlinarith [pow_pos (by norm_num : (0:ℚ) < 2) ⌈1 / r⌉.toNat]
    exact mul_le_mul_of_nonneg_right this h0.le
  linarith

/-- C7: for every positive playback rate the emitted atempo steps each lie
within `[0.5, 2.0]`, their product (in emission order) is exactly the rate,
and rate `1.0` emits no step.  Exact rational arithmetic makes the "within
floating tolerance" product equation an exact equality. -/
theorem C7_tempo_decomposition (r : ℚ) (h : 0 < r) :
    (∀ s ∈ tempoSteps r, 1/2 ≤ s ∧ s ≤ 2) ∧
    (tempoSteps r).prod = r ∧
    (r = 1 → tempoSteps r = []) := by
  by_cases h1 : r = 1
  · subst h1
    refine ⟨?_, ?_, fun _ => ?_⟩ <;> simp [tempoSteps]
  · by_cases h2 : 1/2 ≤ r ∧ r ≤ 2
    · have hunf : tempoSteps r = [r] := by
        simp only [tempoSteps]
        rw [if_neg h1, if_pos h2]
      rw [hunf]
      refine ⟨?_, by simp, fun hr => absurd hr h1⟩
      intro s hs
      rw [List.mem_singleton] at hs
      subst hs
      exact h2
    · obtain ⟨hp1prod, hp1mem, hp1pos, hp1le, hp1gt, hp1id⟩ :=
        halveStepsAux_spec ⌈r⌉.toNat r h (rat_le_two_pow_ceil r h)
      obtain ⟨hp2prod, hp2mem, hp2ge, hp2lt, hp2id⟩ :=
        doubleStepsAux_spec ⌈1 / (halveStepsAux ⌈r⌉.toNat r).2⌉.toNat
          (halveStepsAux ⌈r⌉.toNat r).2 hp1pos
          (one_le_two_pow_ceil_inv (halveStepsAux ⌈r⌉.toNat r).2 hp1pos)
      have hunf : tempoSteps r =
          (halveStepsAux ⌈r⌉.toNat r).1 ++
            (doubleStepsAux ⌈1 / (halveStepsAux ⌈r⌉.toNat r).2⌉.toNat
              (halveStepsAux ⌈r⌉.toNat r).2).1 ++
            (if (doubleStepsAux ⌈1 / (halveStepsAux ⌈r⌉.toNat r).2⌉.toNat
                (halveStepsAux ⌈r⌉.toNat r).2).2 ≠ 1 then
              [(doubleStepsAux ⌈1 / (halveStepsAux ⌈r⌉.toNat r).2⌉.toNat
                (halveStepsAux ⌈r⌉.toNat r).2).2]
            else []) := by
        simp only [tempoSteps, if_neg h1, if_neg h2]
      set p1 := halveStepsAux ⌈r⌉.toNat r with hp1def
      set p2 := doubleStepsAux ⌈1 / p1.2⌉.toNat p1.2 with hp2def
      have hp2le : p2.2 ≤ 2 := by
        by_cases hlt : p1.2 < 1/2
        · linarith [hp2lt hlt]
        · push_neg at hlt
          rw [hp2id hlt]
          exact hp1le
      refine ⟨?_, ?_, fun hr => absurd hr h1⟩
      · intro s hs
        rw [hunf] at hs
        simp only [List.mem_append] at hs
        rcases hs with (hs | hs) | hs
        · rw [hp1mem s hs]
          exact ⟨by norm_num, le_refl 2⟩
        · rw [hp2mem s hs]
          exact ⟨le_refl (1/2), by norm_num⟩
        · by_cases hne : p2.2 ≠ 1
          · rw [if_pos hne, List.mem_singleton] at hs
            subst hs
            exact ⟨hp2ge, hp2le⟩
          · rw [if_neg hne] at hs
            cases hs
      · rw [hunf, List.prod_append, List.prod_append]
        by_cases hne : p2.2 ≠ 1
        · rw [if_pos hne, List.prod_singleton, mul_assoc, hp2prod, hp1prod]
        · rw [if_neg hne]
          push_neg at hne
          have hq : p2.1.prod = p1.2 := by
            rw [← hp2prod, hne, mul_one]
          rw [List.prod_nil, mul_one, hq, hp1prod]

theorem C7_witness :
    (0 : ℚ) < 5 ∧
      ((∀ s ∈ tempoSteps 5, 1/2 ≤ s ∧ s ≤ 2) ∧
        (tempoSteps 5).prod = 5 ∧ ((5 : ℚ) = 1 → tempoSteps 5 = [])) :=
  ⟨by norm_num, C7_tempo_decomposition 5 (by norm_num)⟩

theorem filter_vtrim_videoTrimNodes (segs : List VideoSegment) :
    (videoTrimNodes segs).filter (fun n => isVTrim n) = videoTrimNodes segs := by
  rw [List.filter_eq_self]
  intro a ha
  unfold videoTrimNodes at ha
  rw [List.mem_map] at ha
  obtain ⟨q, _, rfl⟩ := ha
  rfl

theorem videoTrimNodes_length (segs : List VideoSegment) :
    (videoTrimNodes segs).length = segs.length := by
  simp [videoTrimNodes]

theorem mem_audioNodes_isAudioNode (p : Payload) (ap : List AudioInfo) :
    ∀ a ∈ audioNodes p ap, isAudioNode a = true := by
  intro a ha
  unfold audioNodes at ha
  split at ha
  · simp only [List.mem_append] at ha
    rcases ha with ((ha | ha) | ha) | ha
    · split at ha
      · simp only [List.mem_append, List.mem_singleton] at ha
        rcases ha with ha | ha
        · unfold audioSegNodes at ha
          rw [List.mem_map] at ha
          obtain ⟨q, _, rfl⟩ := ha
          rfl
        · subst ha
          rfl
      · cases ha
    · rw [List.mem_map] at ha
      obtain ⟨q, _, rfl⟩ := ha
      rfl
    · rw [List.mem_singleton] at ha
      subst ha
      rfl
    · split at ha
      · rw [List.mem_singleton] at ha
        subst ha
        rfl
      · cases ha
  · split at ha
    · rw [List.mem_singleton] at ha
      subst ha
      rfl
    · cases ha

theorem mem_videoNodes_not_audio (p : Payload) (ap : List AudioInfo) :
    ∀ a ∈ videoNodes p ap, isAudioNode a = false := by
  intro a ha
  unfold videoNodes at ha
  simp only [List.mem_append] at ha
  rcases ha with (((ha | ha) | ha) | ha) | ha
  · split at ha
    · simp only [List.mem_append] at ha
      rcases ha with ha | ha
      · unfold videoTrimNodes at ha
        rw [List.mem_map] at ha
        obtain ⟨q, _, rfl⟩ := ha
        rfl
      · split at ha
        · rw [List.mem_singleton] at ha
          subst ha
          rfl
        · cases ha
    · cases ha
  · rw [List.mem_singleton] at ha
    subst ha
    rfl
  · rcases hb : blurParams p with _ | ⟨x, y, w, z⟩ <;> rw [hb] at ha
    · cases ha
    · rw [List.mem_singleton] at ha
      subst ha
      rfl
  · split at ha
    · rw [List.mem_singleton] at ha
      subst ha
      rfl
    · cases ha
  · split at ha
    · rw [List.mem_singleton] at ha
      subst ha
      rfl
    · cases ha

theorem isVTrim_false_of_audio (a : FNode) (h : isAudioNode a = true) :
    isVTrim a = false := by
  cases a <;> first | rfl | exact absurd h (by simp [isAudioNode])

theorem trimNodesOf_graph (p : Payload) (ap : List AudioInfo) :
    trimNodesOf (videoNodes p ap ++ audioNodes p ap) =
      videoTrimNodes p.video_segments := by
  unfold trimNodesOf
  rw [List.filter_append]
  have h2 : (audioNodes p ap).filter (fun n => isVTrim n) = [] := by
    rw [List.filter_eq_nil_iff]
    intro a ha
    rw [isVTrim_false_of_audio a (mem_audioNodes_isAudioNode p ap a ha)]
    simp
  rw [h2, List.append_nil]
  unfold videoNodes
  rw [List.filter_append, List.filter_append, List.filter_append, List.filter_append]
  have hvn : List.filter (fun n => isVTrim n) [FNode.vnorm] = [] := rfl
  have hbl : (match blurParams p with
      | some (x, y, w, h) => [FNode.vblur x y w h]
      | none => []).filter (fun n => isVTrim n) = [] := by
    rcases blurParams p with _ | ⟨x, y, w, z⟩ <;> rfl
  have hov : (if hasOverlayUrl p then [FNode.voverlay (1 + ap.length)] else []).filter
      (fun n => isVTrim n) = [] := by
    split <;> rfl
  have hsb : (if !p.subtitles.isEmpty then [FNode.vsub] else []).filter
      (fun n => isVTrim n) = [] := by
    split <;> rfl
  rw [hvn, hbl, hov, hsb, List.append_nil, List.append_nil, List.append_nil,
    List.append_nil]
  split
  · rw [List.filter_append, filter_vtrim_videoTrimNodes]
    have hcc : (if p.video_segments.length > 1 then
        [FNode.vconcat p.video_segments.length] else []).filter
        (fun n => isVTrim n) = [] := by
      split <;> rfl
    rw [hcc, List.append_nil]
  · rename_i hseg
    rw [Bool.not_eq_true', Bool.not_eq_false] at hseg
    rw [List.isEmpty_iff.mp hseg]
    rfl

theorem vconcatSel_none_of_audio (a : FNode) (h : isAudioNode a = true) :
    vconcatSel a = none := by
  cases a <;> first | rfl | exact absurd h (by simp [isAudioNode])

theorem vconcatNsOf_graph (p : Payload) (ap : List AudioInfo) :
    vconcatNsOf (videoNodes p ap ++ audioNodes p ap) =
      (if p.video_segments.length ≤ 1 then []
       else [p.video_segments.length]) := by
  unfold vconcatNsOf
  rw [List.filterMap_append]
  have h2 : (audioNodes p ap).filterMap (fun n => vconcatSel n) = [] := by
    rw [List.filterMap_eq_nil_iff]
    intro a ha
    exact vconcatSel_none_of_audio a (mem_audioNodes_isAudioNode p ap a ha)
  rw [h2, List.append_nil]
  unfold videoNodes
  rw [List.filterMap_append, List.filterMap_append, List.filterMap_append,
    List.filterMap_append]
  have htrim : ∀ segs : List VideoSegment, (videoTrimNodes segs).filterMap
      (fun n => vconcatSel n) = [] := by
    intro segs
    rw [List.filterMap_eq_nil_iff]
    intro a ha
    unfold videoTrimNodes at ha
    rw [List.mem_map] at ha
    obtain ⟨q, _, rfl⟩ := ha
    rfl
  have hvn : List.filterMap (fun n => vconcatSel n) [FNode.vnorm] = [] := rfl
  have hbl : (match blurParams p with
      | some (x, y, w, h) => [FNode.vblur x y w h]
      | none => []).filterMap (fun n => vconcatSel n) = [] := by
    rcases blurParams p with _ | ⟨x, y, w, z⟩ <;> rfl
  have hov : (if hasOverlayUrl p then [FNode.voverlay (1 + ap.length)] else []).filterMap
      (fun n => vconcatSel n) = [] := by
    split <;> rfl
  have hsb : (if !p.subtitles.isEmpty then [FNode.vsub] else []).filterMap
      (fun n => vconcatSel n) = [] := by
    split <;> rfl
  rw [hvn, hbl, hov, hsb, List.append_nil, List.append_nil, List.append_nil,
    List.append_nil]
  split
  · rename_i hseg
    rw [List.filterMap_append, htrim, List.nil_append]
    by_cases hlen : p.video_segments.length > 1
    · rw [if_pos hlen, if_neg (by omega)]
      rfl
    · rw [if_neg hlen, if_pos (by omega)]
      rfl
  · rename_i hseg
    rw [Bool.not_eq_true', Bool.not_eq_false] at hseg
    rw [List.isEmpty_iff.mp hseg]
    rw [if_pos (by simp)]
    rfl

theorem audioNodesOf_graph (p : Payload) (ap : List AudioInfo) :
    audioNodesOf (videoNodes p ap ++ audioNodes p ap) = audioNodes p ap := by
  unfold audioNodesOf
  rw [List.filter_append]
  have h1 : (videoNodes p ap).filter (fun n => isAudioNode n) = [] := by
    rw [List.filter_eq_nil_iff]
    intro a ha
    rw [mem_videoNodes_not_audio p ap a ha]
    simp
  have h2 : (audioNodes p ap).filter (fun n => isAudioNode n) = audioNodes p ap := by
    rw [List.filter_eq_self]
    intro a ha
    rw [mem_audioNodes_isAudioNode p ap a ha]
  rw [h1, h2, List.nil_append]

/-- C1 counterexample: a request with two video segments but no audio clip,
overlay or blur box does not take the filter-complex path at all — the
segments are ignored and zero trim nodes are emitted, contradicting the
claim's "exactly N trim nodes" for every request. -/
theorem C1_counterexample :
    payloadTwoSegs.video_segments.length = 2 ∧
      buildFilterGraph payloadTwoSegs
        (resolveAudio sampleFiles payloadTwoSegs.audio_files) = none ∧
      (trimNodesOf ((buildFilterGraph payloadTwoSegs
        (resolveAudio sampleFiles payloadTwoSegs.audio_files)).getD [])).length = 0 ∧
      (2 : ℕ) ≠ 0 :=
  ⟨rfl, rfl, rfl, by decide⟩

/-- C1 amended: when the filter-complex path is taken (at least one resolved
audio clip, a PNG-data overlay, or an enabled blur box), the built graph
contains exactly one trim-and-retime node per video segment, in list order
with that segment's parameters, and one concatenation node with `n = N`
exactly when `N > 1` (none for `N ≤ 1`); when that path is not taken no
filter graph is built and the segments are ignored. -/
theorem C1_amended_trim_concat (p : Payload) (ap : List AudioInfo)
    (h : use_filter_complex p ap = true) :
    ∃ g, buildFilterGraph p ap = some g ∧
      trimNodesOf g = videoTrimNodes p.video_segments ∧
      (trimNodesOf g).length = p.video_segments.length ∧
      vconcatNsOf g = (if p.video_segments.length ≤ 1 then []
        else [p.video_segments.length]) := by
  refine ⟨videoNodes p ap ++ audioNodes p ap, ?_, ?_, ?_, ?_⟩
  · simp [buildFilterGraph, h]
  · exact trimNodesOf_graph p ap
  · rw [trimNodesOf_graph p ap, videoTrimNodes_length]
  · exact vconcatNsOf_graph p ap

theorem C1_witness :
    use_filter_complex payloadTwoSegsBlur [] = true ∧
      (∃ g, buildFilterGraph payloadTwoSegsBlur [] = some g ∧
        trimNodesOf g = videoTrimNodes payloadTwoSegsBlur.video_segments ∧
        (trimNodesOf g).length = payloadTwoSegsBlur.video_segments.length ∧
        vconcatNsOf g = (if payloadTwoSegsBlur.video_segments.length ≤ 1 then []
          else [payloadTwoSegsBlur.video_segments.length])) :=
  ⟨rfl, C1_amended_trim_concat payloadTwoSegsBlur [] rfl⟩

/-- C2 counterexample: a request whose only nonzero datum is
`master_volume_db = -6` does not take the filter-complex path, so no audio
filter chain is built and the master gain is never applied — contradicting
the claim that a nonzero master volume (or video segments) alone suffices. -/
theorem C2_counterexample :
    payloadMasterOnly.master_volume_db = -6 ∧ (-6 : ℚ) ≠ 0 ∧
      buildFilterGraph payloadMasterOnly
        (resolveAudio sampleFiles payloadMasterOnly.audio_files) = none :=
  ⟨rfl, by norm_num, rfl⟩

/-- C2 amended: when the filter-complex path is taken (at least one resolved
audio clip, a PNG-data overlay, or an enabled blur box), an audio filter
chain is built exactly when there are resolved audio clips or the master
volume is nonzero, and a nonzero master gain is applied as the final audio
node (indeed the final node of the whole graph). -/
theorem C2_amended_audio_chain (p : Payload) (ap : List AudioInfo)
    (h : use_filter_complex p ap = true) :
    ∃ g, buildFilterGraph p ap = some g ∧
      (audioNodesOf g ≠ [] ↔ (ap ≠ [] ∨ p.master_volume_db ≠ 0)) ∧
      (p.master_volume_db ≠ 0 →
        g.getLast? = some (FNode.avolume p.master_volume_db)) := by
  refine ⟨videoNodes p ap ++ audioNodes p ap, by simp [buildFilterGraph, h], ?_, ?_⟩
  · rw [audioNodesOf_graph p ap]
    unfold audioNodes
    cases hap : ap.isEmpty
    · have hapne : ap ≠ [] := by
        intro h0
        rw [h0] at hap
        simp at hap
      rw [if_pos (by simp)]
      constructor
      · intro _
        exact Or.inl hapne
      · intro _
        intro hnil
        have : FNode.amix (ap.length + 1) MixDuration.longest 0 ∈ ([] : List FNode) := by
          rw [← hnil]
          simp
        cases this
    · have hapnil : ap = [] := List.isEmpty_iff.mp hap
      rw [if_neg (by simp)]
      subst hapnil
      by_cases hm : p.master_volume_db ≠ 0
      · rw [if_pos hm]
        simp [hm]
      · rw [if_neg hm]
        push_neg at hm
        simp [hm]
  · intro hm
    have hane : audioNodes p ap ≠ [] := by
      unfold audioNodes
      cases hap : ap.isEmpty
      · rw [if_pos (by simp)]
        simp
      · rw [if_neg (by simp), if_pos hm]
        simp
    rw [List.getLast?_append_of_ne_nil _ hane]
    unfold audioNodes
    cases hap : ap.isEmpty
    · rw [if_pos (by simp), if_pos hm]
      rw [List.getLast?_append_of_ne_nil _
        (by simp : [FNode.avolume p.master_volume_db] ≠ [])]
      rfl
    · rw [if_neg (by simp), if_pos hm]
      rfl

theorem C2_witness :
    use_filter_complex payloadMasterBlur [] = true ∧
      (∃ g, buildFilterGraph payloadMasterBlur [] = some g ∧
        (audioNodesOf g ≠ [] ↔
          (([] : List AudioInfo) ≠ [] ∨ payloadMasterBlur.master_volume_db ≠ 0)) ∧
        (payloadMasterBlur.master_volume_db ≠ 0 →
          g.getLast? = some (FNode.avolume payloadMasterBlur.master_volume_db))) :=
  ⟨rfl, C2_amended_audio_chain payloadMasterBlur [] rfl⟩

theorem resolveAudio_all_resolve (getFile : String → Option StoredFile) :
    ∀ files : List AudioFileRef,
      (∀ af ∈ files, ∃ i, af.id = some i ∧ (getFile i).isSome = true) →
      (resolveAudio getFile files).length = files.length := by
  intro files
  induction files with
  | nil => intro _; rfl
  | cons af rest ih =>
    intro h
    obtain ⟨i, hid, hsome⟩ := h af (List.mem_cons_self af rest)
    obtain ⟨v, hv⟩ := Option.isSome_iff_exists.mp hsome
    have hstep : resolveAudio getFile (af :: rest) =
        ⟨af.startTime, af.volumeDb⟩ :: resolveAudio getFile rest := by
      simp only [resolveAudio, List.filterMap_cons, hid, hv]
    rw [hstep, List.length_cons, List.length_cons,
      ih fun af' ha => h af' (List.mem_cons_of_mem _ ha)]

theorem isAmix_false_of_not_amix (a : FNode) (h : isAudioNode a = false) :
    isAmix a = false := by
  cases a <;> first | rfl | exact absurd h (by simp [isAudioNode])

theorem amixNodesOf_audioNodes (p : Payload) (ap : List AudioInfo)
    (hap : ap ≠ []) :
    amixNodesOf (audioNodes p ap) =
      [FNode.amix (ap.length + 1) MixDuration.longest 0] := by
  unfold amixNodesOf audioNodes
  rw [if_pos (by simp [hap])]
  rw [List.filter_append, List.filter_append, List.filter_append]
  have hseg : (if !p.video_segments.isEmpty then
      audioSegNodes p.video_segments ++ [FNode.aconcat p.video_segments.length]
      else []).filter (fun n => isAmix n) = [] := by
    split
    · rw [List.filter_append, List.filter_eq_nil_iff.mpr, List.nil_append]
      · rfl
      · intro a ha
        unfold audioSegNodes at ha
        rw [List.mem_map] at ha
        obtain ⟨q, _, rfl⟩ := ha
        simp [isAmix]
    · rfl
  have hdel : (ap.enum.map fun q =>
      FNode.adelay (q.1 + 1)
        (if q.2.volume_db ≠ 0 then some q.2.volume_db else none)
        (pyInt (q.2.start_time * 1000))).filter (fun n => isAmix n) = [] := by
    rw [List.filter_eq_nil_iff]
    intro a ha
    rw [List.mem_map] at ha
    obtain ⟨q, _, rfl⟩ := ha
    simp [isAmix]
  have hmv : (if p.master_volume_db ≠ 0 then
      [FNode.avolume p.master_volume_db] else []).filter (fun n => isAmix n) = [] := by
    split <;> rfl
  rw [hseg, hdel, hmv, List.nil_append, List.nil_append, List.append_nil]
  rfl

/-- C8: for every request with at least one audio clip, all of whose clip
ids resolve in storage, the graph contains exactly one mix node, combining
the base audio stream and all delayed clip streams
(`inputs = number of clips + 1`), with `duration=longest` (output lasts as
long as the longest contributor, not the shortest and not the sum) and
`normalize=0` (no implicit loudness normalization). -/
theorem C8_amix_node (getFile : String → Option StoredFile) (p : Payload)
    (hne : p.audio_files ≠ [])
    (hres : ∀ af ∈ p.audio_files, ∃ i, af.id = some i ∧ (getFile i).isSome = true) :
    ∃ g, buildFilterGraph p (resolveAudio getFile p.audio_files) = some g ∧
      amixNodesOf g =
        [FNode.amix (p.audio_files.length + 1) MixDuration.longest 0] := by
  have hlen : (resolveAudio getFile p.audio_files).length = p.audio_files.length :=
    resolveAudio_all_resolve getFile p.audio_files hres
  have hapne : resolveAudio getFile p.audio_files ≠ [] := by
    intro h0
    rw [h0] at hlen
    exact hne (List.length_eq_zero.mp hlen.symm)
  have hfc : use_filter_complex p (resolveAudio getFile p.audio_files) = true := by
    unfold use_filter_complex
    obtain ⟨x, xs, hcons⟩ := List.exists_cons_of_ne_nil hapne
    rw [hcons]
    rfl
  refine ⟨videoNodes p (resolveAudio getFile p.audio_files) ++
    audioNodes p (resolveAudio getFile p.audio_files),
    by simp [buildFilterGraph, hfc], ?_⟩
  unfold amixNodesOf
  rw [List.filter_append]
  have h1 : (videoNodes p (resolveAudio getFile p.audio_files)).filter
      (fun n => isAmix n) = [] := by
    rw [List.filter_eq_nil_iff]
    intro a ha
    rw [isAmix_false_of_not_amix a (mem_videoNodes_not_audio p _ a ha)]
    simp
  have h2 := amixNodesOf_audioNodes p (resolveAudio getFile p.audio_files) hapne
  unfold amixNodesOf at h2
  rw [h1, h2, List.nil_append, hlen]

theorem C8_witness :
    payloadOneAudio.audio_files ≠ [] ∧
      (∀ af ∈ payloadOneAudio.audio_files,
        ∃ i, af.id = some i ∧ (sampleFiles i).isSome = true) ∧
      (∃ g, buildFilterGraph payloadOneAudio
          (resolveAudio sampleFiles payloadOneAudio.audio_files) = some g ∧
        amixNodesOf g =
          [FNode.amix (payloadOneAudio.audio_files.length + 1)
            MixDuration.longest 0]) :=
  ⟨by simp [payloadOneAudio, basePayload],
   fun af haf => by
     simp only [payloadOneAudio, basePayload] at haf
     rw [List.mem_singleton] at haf
     subst haf
     exact ⟨"song", rfl, by decide⟩,
   C8_amix_node sampleFiles payloadOneAudio (by simp [payloadOneAudio, basePayload])
     (fun af haf => by
       simp only [payloadOneAudio, basePayload] at haf
       rw [List.mem_singleton] at haf
       subst haf
       exact ⟨"song", rfl, by decide⟩)⟩

/-- C3 counterexample: a request referencing the audio id `"ghost"`, which is
absent from storage, does not fail with a 404 — the render proceeds to a
successful result with the clip silently omitted (the resolved audio list is
empty), contradicting the claim. -/
theorem C3_counterexample :
    envOk.files "ghost" = none ∧
      payloadGhostAudio.audio_files = [audioRefGhost] ∧
      audioRefGhost.id = some "ghost" ∧
      (render_video envOk "proj" payloadGhostAudio).1 =
        Outcome.result Status.success Msg.rendered ∧
      resolveAudio envOk.files payloadGhostAudio.audio_files = [] := by
  refine ⟨by decide, rfl, rfl, by decide, by decide⟩

/-- C3 amended: only a missing project or missing primary video id raises an
HTTP 404; once those resolve, the call never raises at all, and an audio
clip whose id does not resolve in storage is silently dropped from the
resolved list — the render proceeds with that clip omitted. -/
theorem C3_amended_audio_skipped (env : Env) (pid : String) (p : Payload)
    (af : AudioFileRef)
    (hp : env.projects pid = true)
    (hv : (env.files p.video_file_id).isSome = true)
    (ha : ∀ i, af.id = some i → env.files i = none) :
    (∀ c, (render_video env pid p).1 ≠ Outcome.httpError c) ∧
      resolveAudio env.files (af :: p.audio_files) =
        resolveAudio env.files p.audio_files := by
  obtain ⟨v, hv'⟩ := Option.isSome_iff_exists.mp hv
  constructor
  · intro c
    simp only [render_video, hp, hv']
    cases hff : env.ffmpegFound
    · simp
    · cases hrun : env.run
      · rename_i rc
        by_cases hrc : rc ≠ 0
        · simp [hrc]
        · simp [hrc]
      · simp
  · unfold resolveAudio
    rw [List.filterMap_cons]
    cases hid : af.id with
    | none => simp
    | some i => simp only [ha i hid]

theorem C3_witness :
    envOk.projects "proj" = true ∧
      (envOk.files basePayload.video_file_id).isSome = true ∧
      (∀ i, audioRefGhost.id = some i → envOk.files i = none) ∧
      ((∀ c, (render_video envOk "proj" basePayload).1 ≠ Outcome.httpError c) ∧
        resolveAudio envOk.files (audioRefGhost :: basePayload.audio_files) =
          resolveAudio envOk.files basePayload.audio_files) :=
  ⟨rfl, by decide,
   fun i hi => by
     rw [show i = "ghost" from (Option.some_inj.mp hi).symm]
     decide,
   C3_amended_audio_skipped envOk "proj" basePayload audioRefGhost rfl (by decide)
     (fun i hi => by
       rw [show i = "ghost" from (Option.some_inj.mp hi).symm]
       decide)⟩

/-- C9: when the ffmpeg binary is absent (and the pre-flight project and
video lookups succeed), the call returns the structured error result naming
the missing engine with an empty side-effect trace: no temporary directory,
temporary file, or subprocess is ever created. -/
theorem C9_missing_engine (env : Env) (pid : String) (p : Payload)
    (hp : env.projects pid = true)
    (hv : (env.files p.video_file_id).isSome = true)
    (hf : env.ffmpegFound = false) :
    render_video env pid p = (Outcome.result Status.error Msg.missingEngine, []) := by
  obtain ⟨v, hv'⟩ := Option.isSome_iff_exists.mp hv
  simp [render_video, hp, hv', hf]

theorem C9_witness :
    envNoFfmpeg.projects "proj" = true ∧
      (envNoFfmpeg.files basePayload.video_file_id).isSome = true ∧
      envNoFfmpeg.ffmpegFound = false ∧
      render_video envNoFfmpeg "proj" basePayload =
        (Outcome.result Status.error Msg.missingEngine, []) :=
  ⟨rfl, by decide, rfl,
   C9_missing_engine envNoFfmpeg "proj" basePayload rfl (by decide) rfl⟩

/-- C10: when the subprocess exceeds the configured timeout, the call always
returns the structured error result naming `RENDER_TIMEOUT_SECONDS` — with no
exception propagating — regardless of whether appending the timeout marker
to the audit log succeeds (that append is guarded by its own
`try/except`); the marker appears in the trace exactly when the append
succeeds. -/
theorem C10_timeout_structured (env : Env) (pid : String) (p : Payload)
    (hp : env.projects pid = true)
    (hv : (env.files p.video_file_id).isSome = true)
    (hf : env.ffmpegFound = true)
    (ht : env.run = RunOutcome.timedOut) :
    (render_video env pid p).1 =
        Outcome.result Status.error (Msg.timeout RENDER_TIMEOUT_SECONDS) ∧
      (Event.timeoutMarkerLogged ∈ (render_video env pid p).2 ↔
        env.logAppendOk = true) := by
  obtain ⟨v, hv'⟩ := Option.isSome_iff_exists.mp hv
  constructor
  · simp [render_video, hp, hv', hf, ht]
  · simp only [render_video, hp, hv', hf, ht]
    cases hl : env.logAppendOk <;> simp [hl]

theorem C10_witness :
    envTimeoutLogFail.projects "proj" = true ∧
      (envTimeoutLogFail.files basePayload.video_file_id).isSome = true ∧
      envTimeoutLogFail.ffmpegFound = true ∧
      envTimeoutLogFail.run = RunOutcome.timedOut ∧
      ((render_video envTimeoutLogFail "proj" basePayload).1 =
          Outcome.result Status.error (Msg.timeout RENDER_TIMEOUT_SECONDS) ∧
        (Event.timeoutMarkerLogged ∈
            (render_video envTimeoutLogFail "proj" basePayload).2 ↔
          envTimeoutLogFail.logAppendOk = true)) :=
  ⟨rfl, by decide, rfl, rfl,
   C10_timeout_structured envTimeoutLogFail "proj" basePayload rfl (by decide) rfl rfl⟩
